import Mathlib

/-!
Verification of the decision core of the `facey` security dashboard.

The identity stabilizer (`iou`, `applyStickyLabels`), the zone drawing UI
(`handleCanvasClick`, `changeZoneType`, `saveZone`) and the live zone-alert
rendering (`drawZoneAlerts`, `unauthorizedZoneAlerts`) are embedded from
`frontend/src/components/SecurityAlerts.jsx`.  The backend alert deduplicator,
line-crossing state machine and restriction evaluator are not part of the
frontend sources; they are modelled from the specification (each such
definition carries a `Modelled from the spec:` doc comment).

JavaScript numbers are embedded as rationals (`ℚ`); the claims at stake only
involve comparisons, additions, multiplications and a single guarded division,
whose qualitative behaviour agrees with exact arithmetic.
-/

namespace Facey

/-- Axis-aligned bounding box `[x1, y1, x2, y2]` as used throughout
`SecurityAlerts.jsx`. -/
structure Box where
  x1 : ℚ
  y1 : ℚ
  x2 : ℚ
  y2 : ℚ
deriving DecidableEq, Repr

/-- Embedding of `IOU_THRESHOLD = 0.25` from `SecurityAlerts.jsx`. -/
def IOU_THRESHOLD : ℚ := 1/4

/-- Embedding of `CONFIDENT_SCORE = 0.42` from `SecurityAlerts.jsx`. -/
def CONFIDENT_SCORE : ℚ := 42/100

/-- Embedding of `iou(bboxA, bboxB)` from `SecurityAlerts.jsx`: intersection
over union of two axis-aligned boxes, `0` when the intersection is empty or
degenerate (`ix2 <= ix1 || iy2 <= iy1`). -/
def iou (a b : Box) : ℚ :=
  let ix1 := max a.x1 b.x1
  let iy1 := max a.y1 b.y1
  let ix2 := min a.x2 b.x2
  let iy2 := min a.y2 b.y2
  if ix2 ≤ ix1 ∨ iy2 ≤ iy1 then 0
  else
    let inter := (ix2 - ix1) * (iy2 - iy1)
    let areaA := (a.x2 - a.x1) * (a.y2 - a.y1)
    let areaB := (b.x2 - b.x1) * (b.y2 - b.y1)
    inter / (areaA + areaB - inter)

/-- Mathematical area of a box, following the spec wording "intersection area
divided by union area". -/
def boxArea (a : Box) : ℚ := (a.x2 - a.x1) * (a.y2 - a.y1)

/-- Mathematical (clamped) area of the intersection of two boxes, following
the spec wording for IoU; zero when the boxes do not overlap. -/
def interArea (a b : Box) : ℚ :=
  max 0 (min a.x2 b.x2 - max a.x1 b.x1) * max 0 (min a.y2 b.y2 - max a.y1 b.y1)

/-- A box is well formed when its corners are ordered. -/
def WellFormed (a : Box) : Prop := a.x1 ≤ a.x2 ∧ a.y1 ≤ a.y2

instance (a : Box) : Decidable (WellFormed a) := by
  unfold WellFormed; infer_instance

/-- Two boxes are disjoint (no overlap) when they are separated on one axis. -/
def DisjointBoxes (a b : Box) : Prop :=
  a.x2 ≤ b.x1 ∨ b.x2 ≤ a.x1 ∨ a.y2 ≤ b.y1 ∨ b.y2 ≤ a.y1

instance (a b : Box) : Decidable (DisjointBoxes a b) := by
  unfold DisjointBoxes; infer_instance

/-- Per-frame face detection as consumed by `applyStickyLabels` in
`SecurityAlerts.jsx`: bounding box, optional name/role, authorized flag,
optional numeric confidence score. -/
structure Detection where
  bbox : Box
  name : Option String
  role : Option String
  authorized : Bool
  score : Option ℚ
deriving DecidableEq, Repr

/-- Embedding of `typeof d.score === 'number' ? d.score : 0`. -/
def scoreOf (d : Detection) : ℚ := d.score.getD 0

/-- Embedding of JavaScript `String.prototype.trim`: drop whitespace from both
ends of the string. -/
def jsTrim (s : String) : String :=
  ⟨((s.data.dropWhile Char.isWhitespace).reverse.dropWhile Char.isWhitespace).reverse⟩

/-- Embedding of the JavaScript name test
`n && String(n).trim() !== '' && String(n).trim() !== 'Unknown'`
(a missing or empty string is falsy). -/
def isRealName (n : Option String) : Bool :=
  match n with
  | none => false
  | some s => s ≠ "" && jsTrim s ≠ "" && jsTrim s ≠ "Unknown"

/-- Embedding of the `hasConfidentMatch` test inside `applyStickyLabels`:
`score >= CONFIDENT_SCORE && d.name && trim ≠ '' && trim ≠ 'Unknown'`. -/
def hasConfidentMatch (d : Detection) : Bool :=
  decide (CONFIDENT_SCORE ≤ scoreOf d) && isRealName d.name

/-- Loop body of the best-overlap search in `applyStickyLabels`:
`if (o > bestIou) { bestIou = o; best = p }`. -/
def bmStep (bbox : Box) (acc : ℚ × Option Detection) (p : Detection) :
    ℚ × Option Detection :=
  let o := iou bbox p.bbox
  if acc.1 < o then (o, some p) else acc

/-- Embedding of the best-overlap search loop of `applyStickyLabels`:
`bestIou = 0; best = null; for p of previous: if (iou(d.bbox,p.bbox) > bestIou)
{ bestIou = o; best = p }`. -/
def bestMatch (bbox : Box) (previous : List Detection) : ℚ × Option Detection :=
  previous.foldl (bmStep bbox) (0, none)

/-- Embedding of the per-detection body of `applyStickyLabels`. -/
def stickyOne (previous : List Detection) (d : Detection) : Detection :=
  if hasConfidentMatch d then d
  else
    let m := bestMatch d.bbox previous
    match m.2 with
    | some best =>
        if IOU_THRESHOLD ≤ m.1 && isRealName best.name then
          { d with name := best.name, role := best.role, authorized := best.authorized }
        else d
    | none => d

/-- Embedding of `applyStickyLabels(newDetections, previous)` from
`SecurityAlerts.jsx` (a null/empty `previous` returns the input list). -/
def applyStickyLabels (newDetections previous : List Detection) : List Detection :=
  if previous.isEmpty then newDetections
  else newDetections.map (stickyOne previous)

/-- Concrete confident, named detection used in witnesses. -/
def dAlice : Detection := ⟨⟨0, 0, 2, 2⟩, some "Alice", some "Admin", true, some 1⟩

/-- Concrete low-confidence, unnamed detection used in witnesses. -/
def dBlank : Detection := ⟨⟨0, 0, 2, 2⟩, none, none, false, none⟩

/-- Concrete previously tracked, named detection used in witnesses. -/
def pBob : Detection := ⟨⟨0, 0, 2, 2⟩, some "Bob", some "Visitor", false, some 1⟩

/-! Zone drawing UI and zone persistence (`SecurityAlerts.jsx`). -/

/-- Camera-view zone payload as built by `saveZone` and stored by the
configuration store. -/
structure Zone where
  feed_id : ℕ
  name : String
  zone_type : String
  points : List (ℚ × ℚ)
  authorized_roles : List String
  color : String
  active : Bool
deriving DecidableEq, Repr

/-- Zone-drawing state of one `CameraFeed` component: the `isDrawingZone`,
`drawingPoints`, `newZoneName` and `newZoneType` pieces of React state. -/
structure DrawState where
  isDrawingZone : Bool
  drawingPoints : List (ℚ × ℚ)
  newZoneName : String
  newZoneType : String
deriving DecidableEq, Repr

/-- Initial zone-drawing state (the `useState` initializers). -/
def initDrawState : DrawState := ⟨false, [], "", "polygon"⟩

/-- User interactions that mutate the zone-drawing state.  The type buttons
only ever call `changeZoneType` with `'polygon'` or `'line'`. -/
inductive ZoneUIEvent where
  | canvasClick (p : ℚ × ℚ)
  | chooseTypePolygon
  | chooseTypeLine
  | startDrawing
  | cancelDrawing
deriving DecidableEq, Repr

/-- Embedding of the zone-drawing handlers of `SecurityAlerts.jsx`:
`handleCanvasClick` (ignores clicks when not drawing; for a line with 2 points
already placed it returns without adding), `changeZoneType` (trims to 2 points
when switching to line), `startDrawing` and `cancelDrawing`. -/
def zoneUIStep (s : DrawState) (e : ZoneUIEvent) : DrawState :=
  match e with
  | .canvasClick p =>
      if !s.isDrawingZone then s
      else if s.newZoneType = "line" ∧ 2 ≤ s.drawingPoints.length then s
      else { s with drawingPoints := s.drawingPoints ++ [p] }
  | .chooseTypePolygon => { s with newZoneType := "polygon" }
  | .chooseTypeLine =>
      { s with newZoneType := "line", drawingPoints := s.drawingPoints.take 2 }
  | .startDrawing =>
      { s with isDrawingZone := true, drawingPoints := [], newZoneName := "",
               newZoneType := "polygon" }
  | .cancelDrawing => { s with isDrawingZone := false, drawingPoints := [] }

/-- Zone-drawing state reached after a sequence of user interactions. -/
def runZoneUI (events : List ZoneUIEvent) : DrawState :=
  events.foldl zoneUIStep initDrawState

/-- Embedding of `saveZone`: computes `minPts` (2 for line, 3 otherwise),
refuses to issue a create request below it, and otherwise posts the zone
payload (`name: newZoneName.trim() || 'Restricted Zone'`, …). -/
def saveZone (slotIndex : ℕ) (s : DrawState) : Option Zone :=
  let minPts := if s.newZoneType = "line" then 2 else 3
  if s.drawingPoints.length < minPts then none
  else some
    { feed_id := slotIndex
      name := if jsTrim s.newZoneName = "" then "Restricted Zone" else jsTrim s.newZoneName
      zone_type := s.newZoneType
      points := s.drawingPoints
      authorized_roles := []
      color := if s.newZoneType = "line" then "#f97316" else "#ef4444"
      active := true }

/-- Modelled from the spec: the write-time validation of zone configuration in
the backend zone store (`camera_zones_store.py`, not part of the sources):
a polygon zone needs at least 3 points, a line zone exactly 2 points, and any
other shape is rejected with a validation error. -/
def validateZone (z : Zone) : Bool :=
  if z.zone_type = "polygon" then decide (3 ≤ z.points.length)
  else if z.zone_type = "line" then decide (z.points.length = 2)
  else false

/-! Live zone-alert rendering (`drawZoneAlerts` and the footer badge in
`SecurityAlerts.jsx`). -/

/-- Per-frame zone alert as delivered in the `zone_alerts` response field. -/
structure ZoneAlert where
  zone_id : String
  zone_name : String
  alert_type : String
  person_bbox : Box
  person_name : String
  authorized : Bool
deriving DecidableEq, Repr

/-- Overlay drawn by `drawZoneAlerts` for one zone alert: the dashed rectangle
at the person box plus the banner message. -/
structure AlertOverlay where
  bbox : Box
  msg : String
deriving DecidableEq, Repr

/-- Overlay content drawn for one unauthorized zone alert: dashed rectangle at
the person box plus a `BREACH`/`ZONE VIOLATION` banner. -/
def overlayOf (za : ZoneAlert) : AlertOverlay :=
  { bbox := za.person_bbox
    msg := if za.alert_type = "line_crossing"
           then "BREACH — " ++ za.person_name
           else "ZONE VIOLATION — " ++ za.person_name }

/-- Embedding of `drawZoneAlerts(ctx, zoneAlerts, …)` as the list of overlays
it draws: alerts with `authorized` true are skipped (`continue`), the rest get
their overlay. -/
def drawZoneAlerts (zoneAlerts : List ZoneAlert) : List AlertOverlay :=
  zoneAlerts.filterMap fun za =>
    if za.authorized then none else some (overlayOf za)

/-- Embedding of
`unauthorizedZoneAlerts = zoneAlerts.filter((za) => !za.authorized)`. -/
def unauthorizedZoneAlerts (zoneAlerts : List ZoneAlert) : List ZoneAlert :=
  zoneAlerts.filter fun za => !za.authorized

/-- Feed-footer badge: rendered (with the count) only when
`unauthorizedZoneAlerts.length > 0`. -/
def zoneAlertBadge (zoneAlerts : List ZoneAlert) : Option ℕ :=
  if 0 < (unauthorizedZoneAlerts zoneAlerts).length
  then some (unauthorizedZoneAlerts zoneAlerts).length
  else none

/-! Restriction evaluator.  The evaluator itself lives in the backend, which
is not part of the sources; the frontend only carries the level vocabulary
(`RESTRICTION_LEVELS` in the floor-plan page). -/

/-- Restriction levels of a door rule, from `RESTRICTION_LEVELS`. -/
inductive RestrictionLevel where
  | restricted
  | authorized_only
  | public
deriving DecidableEq, Repr

/-- Door restriction rule: level plus the allowed-roles set (meaningful for
`restricted`). -/
structure DoorRule where
  level : RestrictionLevel
  allowed_roles : List String
deriving DecidableEq, Repr

/-- Modelled from the spec: the backend restriction evaluator (a pure function
of subject role and rule; backend code, not part of the sources).  `public`
always allows; `authorized_only` allows exactly the subjects with a non-null
role; `restricted` allows exactly the roles in the allowed set; an absent
subject is denied under both non-public levels. -/
def evalRestriction (role : Option String) (rule : DoorRule) : Bool :=
  match rule.level with
  | .public => true
  | .authorized_only => role.isSome
  | .restricted =>
      match role with
      | none => false
      | some r => rule.allowed_roles.contains r

/-! Line-crossing state machine.  The engine lives in the backend
(`zone_service.py`), which is not part of the sources. -/

/-- Side of a boundary line, as stored per (feed, zone, tracked subject). -/
inductive Side where
  | left
  | right
  | unknown
deriving DecidableEq, Repr

/-- Modelled from the spec: one step of the backend line-crossing state
machine (backend `zone_service.py`, not part of the sources).  Input: stored
side and the side observed this frame; output: new stored side and whether a
`line_crossing` event fires.  An UNKNOWN observation leaves the state alone;
the first real observation records the side without firing; a LEFT↔RIGHT
change fires exactly one event. -/
def lineStep (state obs : Side) : Side × Bool :=
  match obs, state with
  | .unknown, _ => (state, false)
  | o, .unknown => (o, false)
  | o, s => (o, decide (s ≠ o))

/-- Modelled from the spec: running the line-crossing state machine over the
observed sides of consecutive frames, counting fired events. -/
def runLine : Side → List Side → Side × ℕ
  | s, [] => (s, 0)
  | s, o :: rest =>
      let r := lineStep s o
      let t := runLine r.1 rest
      (t.1, (if r.2 then 1 else 0) + t.2)

/-- Number of side switches (adjacent unequal pairs) in a list of sides. -/
def countTrans : List Side → ℕ
  | a :: b :: rest => (if a ≠ b then 1 else 0) + countTrans (b :: rest)
  | _ => 0

/-! Alert deduplicator.  `considerViolation` lives in the backend
(`security_service.py`), which is not part of the sources; MEMORY.md documents
the 15 s cooldown keyed per feed (door alerts) or per (feed, zone) pair. -/

/-- Alert types of the security log. -/
inductive AlertType where
  | unauthorized_door_access
  | zone_presence
  | line_crossing
deriving DecidableEq, Repr

/-- Resolution lifecycle of an alert. -/
inductive Resolution where
  | none
  | acknowledged
  | problem_fixed
deriving DecidableEq, Repr

/-- Violation candidate emitted by the zone/door engines. -/
structure Violation where
  vtype : AlertType
  feed_id : ℕ
  zone_id : ℕ
  person_name : String
deriving DecidableEq, Repr

/-- Persisted alert record. -/
structure Alert where
  atype : AlertType
  feed_id : ℕ
  zone_id : ℕ
  person_name : String
  timestamp : ℕ
  resolution : Resolution
deriving DecidableEq, Repr

/-- Modelled from the spec: the cooldown key of a violation — (feed id,
zone/door id) for `zone_presence` and `line_crossing`, (feed id) alone for
`unauthorized_door_access`. -/
def cooldownKey (v : Violation) : ℕ × Option ℕ :=
  match v.vtype with
  | .unauthorized_door_access => (v.feed_id, none)
  | _ => (v.feed_id, some v.zone_id)

/-- Cooldown key of a persisted alert (same computation on the record). -/
def alertKey (a : Alert) : ℕ × Option ℕ :=
  match a.atype with
  | .unauthorized_door_access => (a.feed_id, none)
  | _ => (a.feed_id, some a.zone_id)

/-- The cooldown window: 15 seconds. -/
def COOLDOWN_SECONDS : ℕ := 15

/-- Shared state of the alert deduplicator: the persisted log (newest first)
and the cooldown map, kept as an association list (newest entry first). -/
structure SecState where
  alerts : List Alert
  cooldown : List ((ℕ × Option ℕ) × ℕ)
deriving DecidableEq, Repr

/-- Fresh deduplicator state: empty log, empty cooldown map. -/
def emptySecState : SecState := ⟨[], []⟩

/-- Timestamp of the last alert fired for a key, if any. -/
def lastFired (cd : List ((ℕ × Option ℕ) × ℕ)) (k : ℕ × Option ℕ) : Option ℕ :=
  (cd.find? fun e => e.1 = k).map (·.2)

/-- Alert record created for a violation at time `now`: resolution starts at
`none`. -/
def mkAlert (v : Violation) (now : ℕ) : Alert :=
  ⟨v.vtype, v.feed_id, v.zone_id, v.person_name, now, .none⟩

/-- Modelled from the spec: `considerViolation(violation) → Alert | null`
(backend `security_service.py`, not part of the sources).  If the stored
timestamp for the violation's cooldown key is within 15 s of `now`, the
violation is suppressed (`null`, no record); otherwise a new alert with
resolution `none` is persisted (newest first) and the key's cooldown timestamp
is updated to `now`. -/
def considerViolation (s : SecState) (v : Violation) (now : ℕ) :
    Option Alert × SecState :=
  let k := cooldownKey v
  let fire : Option Alert × SecState :=
    (some (mkAlert v now), ⟨mkAlert v now :: s.alerts, (k, now) :: s.cooldown⟩)
  match lastFired s.cooldown k with
  | some last => if now < last + COOLDOWN_SECONDS then (none, s) else fire
  | none => fire

/-- Modelled from the spec: feeding a stream of timestamped violations into
the deduplicator, in order. -/
def runSec : SecState → List (Violation × ℕ) → SecState
  | s, [] => s
  | s, (v, t) :: rest => runSec (considerViolation s v t).2 rest

/-- A violation stream is chronological when timestamps never decrease. -/
def Chronological (input : List (Violation × ℕ)) : Prop :=
  input.Chain' fun a b => a.2 ≤ b.2

/-- The dedup invariant on the persisted log (newest first): any two alerts
sharing a cooldown key are at least the cooldown window apart. -/
def Separated (alerts : List Alert) : Prop :=
  alerts.Pairwise fun a b =>
    alertKey a = alertKey b → b.timestamp + COOLDOWN_SECONDS ≤ a.timestamp

/-- Every stored cooldown timestamp is at most the current time. -/
def CdBounded (s : SecState) (t : ℕ) : Prop :=
  ∀ k last, lastFired s.cooldown k = some last → last ≤ t

/-- Every persisted alert's key is present in the cooldown map with a
timestamp at least the alert's. -/
def AlertsCovered (s : SecState) : Prop :=
  ∀ a ∈ s.alerts, ∃ last, lastFired s.cooldown (alertKey a) = some last ∧
    a.timestamp ≤ last

/-- Full deduplicator invariant at time `t`. -/
def SecInv (s : SecState) (t : ℕ) : Prop :=
  Separated s.alerts ∧ CdBounded s t ∧ AlertsCovered s

/-- Concrete zone-presence violation used in witnesses. -/
def vZone : Violation := ⟨AlertType.zone_presence, 0, 1, "Alice"⟩

/-- Concrete authorized zone alert used in witnesses. -/
def zaAuth : ZoneAlert := ⟨"z1", "Server Room", "zone_presence", ⟨0, 0, 1, 1⟩, "Alice", true⟩

/-- Concrete line zone payload used in witnesses. -/
def zLine : Zone := ⟨0, "Restricted Zone", "line", [(0, 0), (1, 1)], [], "#f97316", true⟩

/-! Helper lemmas about `iou`. -/

theorem interArea_comm (a b : Box) : interArea a b = interArea b a := by
  unfold interArea
  rw [min_comm a.x2 b.x2, max_comm a.x1 b.x1, min_comm a.y2 b.y2, max_comm a.y1 b.y1]

theorem iou_eq_formula (a b : Box) :
    iou a b = interArea a b / (boxArea a + boxArea b - interArea a b) := by
  unfold iou interArea boxArea
  dsimp only
  split
  next h =>
    rcases h with h | h
    · rw [max_eq_left (by linarith : min a.x2 b.x2 - max a.x1 b.x1 ≤ 0), zero_mul, zero_div]
    · rw [max_eq_left (by linarith : min a.y2 b.y2 - max a.y1 b.y1 ≤ 0), mul_zero, zero_div]
  next h =>
    push_neg at h
    obtain ⟨hx, hy⟩ := h
    rw [max_eq_right (by linarith : (0:ℚ) ≤ min a.x2 b.x2 - max a.x1 b.x1),
        max_eq_right (by linarith : (0:ℚ) ≤ min a.y2 b.y2 - max a.y1 b.y1)]

theorem iou_comm (a b : Box) : iou a b = iou b a := by
  rw [iou_eq_formula a b, iou_eq_formula b a, interArea_comm, add_comm (boxArea a)]

theorem iou_self (b : Box) (hx : b.x1 < b.x2) (hy : b.y1 < b.y2) : iou b b = 1 := by
  rw [iou_eq_formula]
  have h1 : interArea b b = boxArea b := by
    unfold interArea boxArea
    rw [min_self, max_self, min_self, max_self,
        max_eq_right (by linarith : (0:ℚ) ≤ b.x2 - b.x1),
        max_eq_right (by linarith : (0:ℚ) ≤ b.y2 - b.y1)]
  have h2 : (0:ℚ) < boxArea b := mul_pos (sub_pos.mpr hx) (sub_pos.mpr hy)
  rw [h1]
  have h3 : boxArea b + boxArea b - boxArea b = boxArea b := by ring
  rw [h3, div_self (ne_of_gt h2)]

theorem iou_of_disjoint (a b : Box) (h : DisjointBoxes a b) : iou a b = 0 := by
  have hcond : min a.x2 b.x2 ≤ max a.x1 b.x1 ∨ min a.y2 b.y2 ≤ max a.y1 b.y1 := by
    rcases h with h | h | h | h
    · exact Or.inl (le_trans (min_le_left _ _) (le_trans h (le_max_right _ _)))
    · exact Or.inl (le_trans (min_le_right _ _) (le_trans h (le_max_left _ _)))
    · exact Or.inr (le_trans (min_le_left _ _) (le_trans h (le_max_right _ _)))
    · exact Or.inr (le_trans (min_le_right _ _) (le_trans h (le_max_left _ _)))
  unfold iou
  dsimp only
  rw [if_pos hcond]

theorem iou_guard_zero (a b : Box)
    (h : min a.x2 b.x2 ≤ max a.x1 b.x1 ∨ min a.y2 b.y2 ≤ max a.y1 b.y1) :
    iou a b = 0 := by
  unfold iou
  dsimp only
  rw [if_pos h]

theorem interArea_core (a b : Box) (ha : WellFormed a) (hb : WellFormed b)
    (hx : max a.x1 b.x1 < min a.x2 b.x2) (hy : max a.y1 b.y1 < min a.y2 b.y2) :
    0 < interArea a b ∧ interArea a b ≤ boxArea a ∧ interArea a b ≤ boxArea b := by
  obtain ⟨hax, hay⟩ := ha
  obtain ⟨hbx, hby⟩ := hb
  have h1 : (0:ℚ) < min a.x2 b.x2 - max a.x1 b.x1 := by linarith
  have h2 : (0:ℚ) < min a.y2 b.y2 - max a.y1 b.y1 := by linarith
  have e1 : max (0:ℚ) (min a.x2 b.x2 - max a.x1 b.x1) = min a.x2 b.x2 - max a.x1 b.x1 :=
    max_eq_right (le_of_lt h1)
  have e2 : max (0:ℚ) (min a.y2 b.y2 - max a.y1 b.y1) = min a.y2 b.y2 - max a.y1 b.y1 :=
    max_eq_right (le_of_lt h2)
  have hxa1 : a.x1 ≤ max a.x1 b.x1 := le_max_left _ _
  have hxa2 : min a.x2 b.x2 ≤ a.x2 := min_le_left _ _
  have hxb1 : b.x1 ≤ max a.x1 b.x1 := le_max_right _ _
  have hxb2 : min a.x2 b.x2 ≤ b.x2 := min_le_right _ _
  have hya1 : a.y1 ≤ max a.y1 b.y1 := le_max_left _ _
  have hya2 : min a.y2 b.y2 ≤ a.y2 := min_le_left _ _
  have hyb1 : b.y1 ≤ max a.y1 b.y1 := le_max_right _ _
  have hyb2 : min a.y2 b.y2 ≤ b.y2 := min_le_right _ _
  unfold interArea boxArea
  rw [e1, e2]
  refine ⟨mul_pos h1 h2, ?_, ?_⟩
  · exact mul_le_mul (by linarith) (by linarith) (le_of_lt h2) (by linarith)
  · exact mul_le_mul (by linarith) (by linarith) (le_of_lt h2) (by linarith)

theorem iou_bounds (a b : Box) (ha : WellFormed a) (hb : WellFormed b) :
    0 ≤ iou a b ∧ iou a b ≤ 1 := by
  by_cases h : min a.x2 b.x2 ≤ max a.x1 b.x1 ∨ min a.y2 b.y2 ≤ max a.y1 b.y1
  · rw [iou_guard_zero a b h]
    norm_num
  · push_neg at h
    obtain ⟨hx, hy⟩ := h
    obtain ⟨hpos, hA, hB⟩ := interArea_core a b ha hb hx hy
    have hdenom : interArea a b ≤ boxArea a + boxArea b - interArea a b := by linarith
    rw [iou_eq_formula]
    constructor
    · exact div_nonneg (le_of_lt hpos) (by linarith)
    · exact (div_le_one (by linarith)).mpr hdenom

theorem iou_denom_pos (a b : Box) (ha : WellFormed a) (hb : WellFormed b)
    (hx : max a.x1 b.x1 < min a.x2 b.x2) (hy : max a.y1 b.y1 < min a.y2 b.y2) :
    0 < boxArea a + boxArea b - interArea a b := by
  obtain ⟨hpos, hA, hB⟩ := interArea_core a b ha hb hx hy
  linarith

/-! Helper lemmas about the best-overlap search and `stickyOne`. -/

theorem bmStep_fst_le (bbox : Box) (acc : ℚ × Option Detection) (p : Detection) :
    acc.1 ≤ (bmStep bbox acc p).1 := by
  unfold bmStep
  dsimp only
  split
  next h => exact le_of_lt h
  next h => exact le_refl _

theorem bmStep_iou_le (bbox : Box) (acc : ℚ × Option Detection) (p : Detection) :
    iou bbox p.bbox ≤ (bmStep bbox acc p).1 := by
  unfold bmStep
  dsimp only
  split
  next h => exact le_refl _
  next h => exact le_of_not_lt h

theorem bestMatch_aux (bbox : Box) (l : List Detection) :
    ∀ acc : ℚ × Option Detection,
      acc.1 ≤ (l.foldl (bmStep bbox) acc).1 ∧
      (∀ p ∈ l, iou bbox p.bbox ≤ (l.foldl (bmStep bbox) acc).1) ∧
      ((l.foldl (bmStep bbox) acc) = acc ∨
        ∃ p, p ∈ l ∧ (l.foldl (bmStep bbox) acc).2 = some p ∧
          (l.foldl (bmStep bbox) acc).1 = iou bbox p.bbox) := by
  induction l with
  | nil =>
      intro acc
      refine ⟨le_refl _, ?_, Or.inl rfl⟩
      intro p hp
      cases hp
  | cons q rest ih =>
      intro acc
      rw [List.foldl_cons]
      obtain ⟨ih1, ih2, ih3⟩ := ih (bmStep bbox acc q)
      refine ⟨le_trans (bmStep_fst_le bbox acc q) ih1, ?_, ?_⟩
      · intro p hp
        rcases List.mem_cons.mp hp with h | h
        · subst h
          exact le_trans (bmStep_iou_le bbox acc p) ih1
        · exact ih2 p h
      · rcases ih3 with h | ⟨p, hp, h2, h1⟩
        · by_cases hlt : acc.1 < iou bbox q.bbox
          · refine Or.inr ⟨q, List.mem_cons_self q rest, ?_, ?_⟩
            · rw [h]; unfold bmStep; dsimp only; rw [if_pos hlt]
            · rw [h]; unfold bmStep; dsimp only; rw [if_pos hlt]
          · refine Or.inl ?_
            rw [h]; unfold bmStep; dsimp only; rw [if_neg hlt]
        · exact Or.inr ⟨p, List.mem_cons_of_mem q hp, h2, h1⟩

theorem bestMatch_max (bbox : Box) (previous : List Detection) :
    ∀ p ∈ previous, iou bbox p.bbox ≤ (bestMatch bbox previous).1 :=
  (bestMatch_aux bbox previous (0, none)).2.1

theorem bestMatch_none (bbox : Box) (previous : List Detection)
    (h : (bestMatch bbox previous).2 = none) : (bestMatch bbox previous).1 = 0 := by
  rcases (bestMatch_aux bbox previous (0, none)).2.2 with he | ⟨p, _, h2, _⟩
  · exact congrArg Prod.fst he
  · exact Option.noConfusion (h2.symm.trans h)

theorem bestMatch_some (bbox : Box) (previous : List Detection) (best : Detection)
    (h : (bestMatch bbox previous).2 = some best) :
    best ∈ previous ∧ iou bbox best.bbox = (bestMatch bbox previous).1 := by
  rcases (bestMatch_aux bbox previous (0, none)).2.2 with he | ⟨p, hp, h2, h1⟩
  · exact Option.noConfusion ((congrArg Prod.snd he).symm.trans h)
  · have hpb : some p = some best := h2.symm.trans h
    obtain rfl : p = best := by injection hpb
    exact ⟨hp, h1.symm⟩

theorem stickyOne_of_confident (previous : List Detection) (d : Detection)
    (h : hasConfidentMatch d = true) : stickyOne previous d = d := by
  unfold stickyOne
  rw [if_pos h]

theorem stickyOne_bbox_score (previous : List Detection) (d : Detection) :
    (stickyOne previous d).bbox = d.bbox ∧ (stickyOne previous d).score = d.score := by
  unfold stickyOne
  split
  · exact ⟨rfl, rfl⟩
  · dsimp only
    split
    · split
      · exact ⟨rfl, rfl⟩
      · exact ⟨rfl, rfl⟩
    · exact ⟨rfl, rfl⟩

theorem stickyOne_none (prev : List Detection) (d : Detection)
    (hsome : (bestMatch d.bbox prev).2 = none) : stickyOne prev d = d := by
  unfold stickyOne
  by_cases hc : hasConfidentMatch d = true
  · rw [if_pos hc]
  · rw [if_neg hc]
    dsimp only
    rw [hsome]

theorem stickyOne_some_inherit (prev : List Detection) (d best : Detection)
    (hconf : hasConfidentMatch d = false)
    (hsome : (bestMatch d.bbox prev).2 = some best)
    (hiou : IOU_THRESHOLD ≤ (bestMatch d.bbox prev).1)
    (hname : isRealName best.name = true) :
    stickyOne prev d =
      { d with name := best.name, role := best.role, authorized := best.authorized } := by
  unfold stickyOne
  rw [if_neg (by simp [hconf])]
  dsimp only
  rw [hsome]
  dsimp only
  rw [if_pos (by rw [decide_eq_true hiou, hname]; rfl)]

theorem stickyOne_some_skip (prev : List Detection) (d best : Detection)
    (hsome : (bestMatch d.bbox prev).2 = some best)
    (hcond : ¬(IOU_THRESHOLD ≤ (bestMatch d.bbox prev).1 ∧ isRealName best.name = true)) :
    stickyOne prev d = d := by
  unfold stickyOne
  by_cases hc : hasConfidentMatch d = true
  · rw [if_pos hc]
  · rw [if_neg hc]
    dsimp only
    rw [hsome]
    dsimp only
    rw [if_neg ?_]
    intro hand
    rcases Bool.and_eq_true_iff.mp hand with ⟨h1, h2⟩
    exact hcond ⟨of_decide_eq_true h1, h2⟩

/-- C2: `applyStickyLabels` returns every detection whose score is at least
0.42 and whose (trimmed) name is non-empty and not "Unknown" completely
unchanged, for every detection list and every previously tracked list: the
name, role and authorized flag of a confident, named detection are never
overwritten. -/
theorem confident_detections_pass_through (dets prev : List Detection) (i : ℕ)
    (h : i < dets.length) (hc : hasConfidentMatch dets[i] = true) :
    (applyStickyLabels dets prev)[i]? = some dets[i] := by
  unfold applyStickyLabels
  split
  · exact List.getElem?_eq_getElem h
  · rw [List.getElem?_map, List.getElem?_eq_getElem h, Option.map_some',
        stickyOne_of_confident prev _ hc]

/-- Witness for C2 at a concrete confident detection. -/
theorem confident_detections_pass_through_witness :
    0 < [dAlice].length ∧ hasConfidentMatch dAlice = true ∧
    (applyStickyLabels [dAlice] [pBob])[0]? = some dAlice := by
  have hc : hasConfidentMatch dAlice = true := by
    unfold hasConfidentMatch
    rw [decide_eq_true
      (show CONFIDENT_SCORE ≤ scoreOf dAlice by norm_num [CONFIDENT_SCORE, scoreOf, dAlice])]
    rw [Bool.true_and]
    decide
  exact ⟨by decide, hc, confident_detections_pass_through [dAlice] [pBob] 0 (by decide) hc⟩

theorem stickyOne_nil (d : Detection) : stickyOne [] d = d :=
  stickyOne_none [] d rfl

theorem applyStickyLabels_eq_map (dets prev : List Detection) :
    applyStickyLabels dets prev = dets.map (stickyOne prev) := by
  unfold applyStickyLabels
  split
  next hemp =>
    have hnil : prev = [] := List.isEmpty_iff.mp hemp
    subst hnil
    induction dets with
    | nil => rfl
    | cons d rest ih => rw [List.map_cons, stickyOne_nil, ← ih]
  next => rfl

/-- C3: for a detection that is not a confident, named match (score below 0.42
or empty/"Unknown" name), `stickyOne` searches the previous tracked boxes for
the greatest IoU against the detection's box; the detection inherits that best
candidate's name, role and authorized flag exactly when the best IoU is at
least 0.25 and the candidate has a real non-"Unknown" name, and in every other
case (no previous boxes, best IoU below the threshold, or an unnamed/"Unknown"
candidate) the detection is returned unchanged. -/
theorem sticky_inherit_iff (prev : List Detection) (d : Detection)
    (hconf : hasConfidentMatch d = false) :
    (∀ dets : List Detection, applyStickyLabels dets prev = dets.map (stickyOne prev)) ∧
    (∀ p ∈ prev, iou d.bbox p.bbox ≤ (bestMatch d.bbox prev).1) ∧
    ((bestMatch d.bbox prev).2 = none → stickyOne prev d = d) ∧
    (∀ best, (bestMatch d.bbox prev).2 = some best →
      best ∈ prev ∧
      iou d.bbox best.bbox = (bestMatch d.bbox prev).1 ∧
      (IOU_THRESHOLD ≤ (bestMatch d.bbox prev).1 ∧ isRealName best.name = true →
        stickyOne prev d =
          { d with name := best.name, role := best.role, authorized := best.authorized }) ∧
      (¬(IOU_THRESHOLD ≤ (bestMatch d.bbox prev).1 ∧ isRealName best.name = true) →
        stickyOne prev d = d)) := by
  refine ⟨fun dets => applyStickyLabels_eq_map dets prev,
    bestMatch_max d.bbox prev, stickyOne_none prev d, ?_⟩
  intro best hsome
  obtain ⟨hmem, hval⟩ := bestMatch_some d.bbox prev best hsome
  exact ⟨hmem, hval,
    fun hcond => stickyOne_some_inherit prev d best hconf hsome hcond.1 hcond.2,
    fun hcond => stickyOne_some_skip prev d best hsome hcond⟩

/-- Witness for C3: a low-confidence unnamed detection over the same box as a
tracked "Bob" inherits Bob's identity. -/
theorem sticky_inherit_iff_witness :
    hasConfidentMatch dBlank = false ∧
    (bestMatch dBlank.bbox [pBob]).2 = some pBob ∧
    IOU_THRESHOLD ≤ (bestMatch dBlank.bbox [pBob]).1 ∧
    isRealName pBob.name = true ∧
    stickyOne [pBob] dBlank =
      { dBlank with name := pBob.name, role := pBob.role, authorized := pBob.authorized } := by
  have hconf : hasConfidentMatch dBlank = false := by
    simp [hasConfidentMatch, isRealName, dBlank]
  have hsome : (bestMatch dBlank.bbox [pBob]).2 = some pBob := by
    norm_num [bestMatch, bmStep, iou, dBlank, pBob]
  have hiou : IOU_THRESHOLD ≤ (bestMatch dBlank.bbox [pBob]).1 := by
    norm_num [IOU_THRESHOLD, bestMatch, bmStep, iou, dBlank, pBob]
  have hname : isRealName pBob.name = true := by decide
  exact ⟨hconf, hsome, hiou, hname,
    (((sticky_inherit_iff [pBob] dBlank hconf).2.2.2 pBob hsome).2.2.1 ⟨hiou, hname⟩)⟩

/-- C8: `applyStickyLabels` returns a list of exactly the input's length with
detections in the same order, and every returned detection keeps its input
counterpart's bbox and score — only name, role and authorized can change. -/
theorem sticky_preserves_frame (dets prev : List Detection) :
    (applyStickyLabels dets prev).length = dets.length ∧
    ∀ i : ℕ,
      (applyStickyLabels dets prev)[i]?.map Detection.bbox = dets[i]?.map Detection.bbox ∧
      (applyStickyLabels dets prev)[i]?.map Detection.score = dets[i]?.map Detection.score := by
  unfold applyStickyLabels
  split
  · exact ⟨rfl, fun i => ⟨rfl, rfl⟩⟩
  · refine ⟨List.length_map _ _, fun i => ?_⟩
    rw [List.getElem?_map]
    cases h : dets[i]? with
    | none => exact ⟨rfl, rfl⟩
    | some d =>
        simp only [Option.map_some']
        exact ⟨congrArg some (stickyOne_bbox_score prev d).1,
               congrArg some (stickyOne_bbox_score prev d).2⟩

theorem iou_self_degenerate (b : Box) (h : b.x2 ≤ b.x1 ∨ b.y2 ≤ b.y1) :
    iou b b = 0 := by
  apply iou_guard_zero
  rcases h with h | h
  · left
    rw [min_self, max_self]
    exact h
  · right
    rw [min_self, max_self]
    exact h

/-- C4: `iou` equals (clamped) intersection area divided by union area, is
symmetric in its two arguments for all boxes, equals 1 on two identical
nondegenerate boxes, and equals 0 on two disjoint boxes. -/
theorem iou_algebraic_properties :
    (∀ a b : Box, iou a b = interArea a b / (boxArea a + boxArea b - interArea a b)) ∧
    (∀ a b : Box, iou a b = iou b a) ∧
    (∀ b : Box, b.x1 < b.x2 → b.y1 < b.y2 → iou b b = 1) ∧
    (∀ a b : Box, DisjointBoxes a b → iou a b = 0) :=
  ⟨iou_eq_formula, iou_comm, iou_self, iou_of_disjoint⟩

/-- Witness for C4 at a concrete identical pair and a concrete disjoint
pair. -/
theorem iou_algebraic_properties_witness :
    (⟨0, 0, 2, 1⟩ : Box).x1 < (⟨0, 0, 2, 1⟩ : Box).x2 ∧
    (⟨0, 0, 2, 1⟩ : Box).y1 < (⟨0, 0, 2, 1⟩ : Box).y2 ∧
    iou ⟨0, 0, 2, 1⟩ ⟨0, 0, 2, 1⟩ = 1 ∧
    DisjointBoxes ⟨0, 0, 1, 1⟩ ⟨2, 0, 3, 1⟩ ∧
    iou ⟨0, 0, 1, 1⟩ ⟨2, 0, 3, 1⟩ = 0 :=
  ⟨by norm_num, by norm_num,
   iou_algebraic_properties.2.2.1 ⟨0, 0, 2, 1⟩ (by norm_num) (by norm_num),
   by decide,
   iou_algebraic_properties.2.2.2 ⟨0, 0, 1, 1⟩ ⟨2, 0, 3, 1⟩ (by decide)⟩

/-- C9: on well-formed boxes `iou` is total and stays within [0, 1]; whenever
the intersection is empty or degenerate (touching edges, zero-area boxes, even
two identical zero-area boxes) the guard returns 0 before any division; and
when the guard passes, both the intersection area and the union-area
denominator are strictly positive, so the division never divides by zero. -/
theorem iou_safety :
    (∀ a b : Box, WellFormed a → WellFormed b → 0 ≤ iou a b ∧ iou a b ≤ 1) ∧
    (∀ a b : Box,
      (min a.x2 b.x2 ≤ max a.x1 b.x1 ∨ min a.y2 b.y2 ≤ max a.y1 b.y1) → iou a b = 0) ∧
    (∀ b : Box, b.x2 ≤ b.x1 ∨ b.y2 ≤ b.y1 → iou b b = 0) ∧
    (∀ a b : Box, WellFormed a → WellFormed b →
      max a.x1 b.x1 < min a.x2 b.x2 → max a.y1 b.y1 < min a.y2 b.y2 →
      0 < interArea a b ∧ 0 < boxArea a + boxArea b - interArea a b) :=
  ⟨iou_bounds, iou_guard_zero, iou_self_degenerate,
   fun a b ha hb hx hy =>
     ⟨(interArea_core a b ha hb hx hy).1, iou_denom_pos a b ha hb hx hy⟩⟩

/-- Witness for C9 at concrete overlapping well-formed boxes and a concrete
zero-area box. -/
theorem iou_safety_witness :
    WellFormed ⟨0, 0, 2, 2⟩ ∧ WellFormed ⟨1, 1, 3, 3⟩ ∧
    (0 ≤ iou ⟨0, 0, 2, 2⟩ ⟨1, 1, 3, 3⟩ ∧ iou ⟨0, 0, 2, 2⟩ ⟨1, 1, 3, 3⟩ ≤ 1) ∧
    iou ⟨0, 0, 0, 0⟩ ⟨0, 0, 0, 0⟩ = 0 ∧
    (0 < interArea ⟨0, 0, 2, 2⟩ ⟨1, 1, 3, 3⟩ ∧
     0 < boxArea ⟨0, 0, 2, 2⟩ + boxArea ⟨1, 1, 3, 3⟩ - interArea ⟨0, 0, 2, 2⟩ ⟨1, 1, 3, 3⟩) :=
  ⟨by decide, by decide,
   iou_safety.1 ⟨0, 0, 2, 2⟩ ⟨1, 1, 3, 3⟩ (by decide) (by decide),
   iou_safety.2.2.1 ⟨0, 0, 0, 0⟩ (by decide),
   iou_safety.2.2.2 ⟨0, 0, 2, 2⟩ ⟨1, 1, 3, 3⟩ (by decide) (by decide) (by decide) (by decide)⟩

/-- C6: the restriction evaluator is a pure function of (subject role, rule):
a `public` rule always allows; an `authorized_only` rule allows exactly the
subjects with a non-null role; a `restricted` rule allows exactly the roles in
the rule's allowed set; an unknown/absent subject is always denied under
`restricted` and `authorized_only`. -/
theorem restriction_evaluator_cases :
    (∀ (role : Option String) (roles : List String),
      evalRestriction role ⟨RestrictionLevel.public, roles⟩ = true) ∧
    (∀ (role : Option String) (roles : List String),
      evalRestriction role ⟨RestrictionLevel.authorized_only, roles⟩ = role.isSome) ∧
    (∀ (r : String) (roles : List String),
      evalRestriction (some r) ⟨RestrictionLevel.restricted, roles⟩ = true ↔ r ∈ roles) ∧
    (∀ roles : List String,
      evalRestriction none ⟨RestrictionLevel.restricted, roles⟩ = false) ∧
    (∀ roles : List String,
      evalRestriction none ⟨RestrictionLevel.authorized_only, roles⟩ = false) := by
  refine ⟨fun role roles => rfl, fun role roles => rfl, fun r roles => ?_, fun roles => rfl,
    fun roles => rfl⟩
  simp [evalRestriction]

/-! Helper lemmas for the line-crossing state machine. -/

theorem runLine_known (obs : List Side) :
    ∀ s : Side, s ≠ Side.unknown →
      (runLine s obs).2 = countTrans (s :: obs.filter (fun o => o != Side.unknown)) := by
  induction obs with
  | nil =>
      intro s hs
      simp [runLine, countTrans]
  | cons o rest ih =>
      intro s hs
      cases o with
      | unknown =>
          simpa [runLine, lineStep, List.filter_cons] using ih s hs
      | left =>
          cases s with
          | unknown => exact absurd rfl hs
          | left =>
              simpa [runLine, lineStep, List.filter_cons, countTrans] using
                ih Side.left (by decide)
          | right =>
              simpa [runLine, lineStep, List.filter_cons, countTrans] using
                ih Side.left (by decide)
      | right =>
          cases s with
          | unknown => exact absurd rfl hs
          | left =>
              simpa [runLine, lineStep, List.filter_cons, countTrans] using
                ih Side.right (by decide)
          | right =>
              simpa [runLine, lineStep, List.filter_cons, countTrans] using
                ih Side.right (by decide)

theorem runLine_from_unknown (obs : List Side) :
    (runLine Side.unknown obs).2 =
      countTrans (obs.filter (fun o => o != Side.unknown)) := by
  induction obs with
  | nil => rfl
  | cons o rest ih =>
      cases o with
      | unknown => simpa [runLine, lineStep, List.filter_cons] using ih
      | left =>
          simpa [runLine, lineStep, List.filter_cons] using
            runLine_known rest Side.left (by decide)
      | right =>
          simpa [runLine, lineStep, List.filter_cons] using
            runLine_known rest Side.right (by decide)

/-- C5: the per-(feed, zone, subject) line-crossing state machine fires
exactly once per transition between the two non-UNKNOWN sides: re-observing
the current side fires nothing and leaves the state unchanged, the very first
observation records the side without firing, and over any observation
sequence starting from UNKNOWN the number of fired events equals the number
of side switches among the non-UNKNOWN observations. -/
theorem line_crossing_once_per_transition :
    (∀ s : Side, s ≠ Side.unknown → lineStep s s = (s, false)) ∧
    (∀ o : Side, o ≠ Side.unknown → lineStep Side.unknown o = (o, false)) ∧
    (∀ obs : List Side,
      (runLine Side.unknown obs).2 =
        countTrans (obs.filter (fun o => o != Side.unknown))) := by
  refine ⟨fun s hs => ?_, fun o ho => ?_, runLine_from_unknown⟩
  · cases s with
    | unknown => exact absurd rfl hs
    | left => rfl
    | right => rfl
  · cases o with
    | unknown => exact absurd rfl ho
    | left => rfl
    | right => rfl

/-- Witness for C5 at a concrete observation sequence with one crossing. -/
theorem line_crossing_once_per_transition_witness :
    Side.left ≠ Side.unknown ∧
    lineStep Side.left Side.left = (Side.left, false) ∧
    lineStep Side.unknown Side.left = (Side.left, false) ∧
    (runLine Side.unknown [Side.left, Side.left, Side.right]).2 =
      countTrans ([Side.left, Side.left, Side.right].filter
        (fun o => o != Side.unknown)) ∧
    (runLine Side.unknown [Side.left, Side.left, Side.right]).2 = 1 :=
  ⟨by decide,
   line_crossing_once_per_transition.1 Side.left (by decide),
   line_crossing_once_per_transition.2.1 Side.left (by decide),
   line_crossing_once_per_transition.2.2 [Side.left, Side.left, Side.right],
   by decide⟩

/-! Helper lemmas for the zone-drawing state machine. -/

theorem zoneUIStep_type (s : DrawState) (e : ZoneUIEvent) :
    (zoneUIStep s e).newZoneType = s.newZoneType ∨
    (zoneUIStep s e).newZoneType = "polygon" ∨
    (zoneUIStep s e).newZoneType = "line" := by
  cases e with
  | canvasClick p =>
      dsimp only [zoneUIStep]
      split
      · exact Or.inl rfl
      · split
        · exact Or.inl rfl
        · exact Or.inl rfl
  | chooseTypePolygon => exact Or.inr (Or.inl rfl)
  | chooseTypeLine => exact Or.inr (Or.inr rfl)
  | startDrawing => exact Or.inr (Or.inl rfl)
  | cancelDrawing => exact Or.inl rfl

theorem zoneUIStep_line_bound (s : DrawState) (e : ZoneUIEvent)
    (h : s.newZoneType = "line" → s.drawingPoints.length ≤ 2) :
    (zoneUIStep s e).newZoneType = "line" →
      (zoneUIStep s e).drawingPoints.length ≤ 2 := by
  cases e with
  | canvasClick p =>
      dsimp only [zoneUIStep]
      split
      · exact h
      · split
        next hcond => exact h
        next hcond =>
          intro hline
          dsimp only at hline ⊢
          rw [List.length_append, List.length_singleton]
          by_cases hlen : 2 ≤ s.drawingPoints.length
          · exact absurd ⟨hline, hlen⟩ hcond
          · omega
  | chooseTypePolygon =>
      dsimp only [zoneUIStep]
      intro hline
      exact absurd hline (by decide)
  | chooseTypeLine =>
      dsimp only [zoneUIStep]
      intro _
      rw [List.length_take]
      exact min_le_left _ _
  | startDrawing =>
      dsimp only [zoneUIStep]
      intro hline
      exact absurd hline (by decide)
  | cancelDrawing =>
      dsimp only [zoneUIStep]
      intro _
      exact Nat.zero_le 2

theorem runZoneUI_invariants (events : List ZoneUIEvent) :
    ((runZoneUI events).newZoneType = "polygon" ∨
     (runZoneUI events).newZoneType = "line") ∧
    ((runZoneUI events).newZoneType = "line" →
      (runZoneUI events).drawingPoints.length ≤ 2) := by
  suffices h : ∀ s : DrawState,
      (s.newZoneType = "polygon" ∨ s.newZoneType = "line") →
      (s.newZoneType = "line" → s.drawingPoints.length ≤ 2) →
      ((events.foldl zoneUIStep s).newZoneType = "polygon" ∨
       (events.foldl zoneUIStep s).newZoneType = "line") ∧
      ((events.foldl zoneUIStep s).newZoneType = "line" →
        (events.foldl zoneUIStep s).drawingPoints.length ≤ 2) by
    exact h initDrawState (Or.inl rfl) (by intro hl; exact absurd hl (by decide))
  induction events with
  | nil => exact fun s h1 h2 => ⟨h1, h2⟩
  | cons e rest ih =>
      intro s h1 h2
      rw [List.foldl_cons]
      refine ih (zoneUIStep s e) ?_ (zoneUIStep_line_bound s e h2)
      rcases zoneUIStep_type s e with h | h | h
      · rw [h]; exact h1
      · exact Or.inl h
      · exact Or.inr h

/-- C7: a malformed zone never reaches the store: `saveZone` refuses to issue
a create request below the minimum point count (3 for polygon, 2 for line);
the drawing handlers never let a line zone accumulate more than 2 points, so
every zone the UI actually posts has ≥ 3 points when it is a polygon and
exactly 2 points when it is a line and passes the write-time validation; and
the write-time validation rejects every polygon with < 3 points and every
line with ≠ 2 points. -/
theorem zone_validation_gate :
    (∀ (idx : ℕ) (s : DrawState),
      s.drawingPoints.length < (if s.newZoneType = "line" then 2 else 3) →
      saveZone idx s = none) ∧
    (∀ events : List ZoneUIEvent,
      (runZoneUI events).newZoneType = "line" →
        (runZoneUI events).drawingPoints.length ≤ 2) ∧
    (∀ (events : List ZoneUIEvent) (idx : ℕ) (z : Zone),
      saveZone idx (runZoneUI events) = some z →
      (z.zone_type = "line" → z.points.length = 2) ∧
      (z.zone_type ≠ "line" → z.zone_type = "polygon" ∧ 3 ≤ z.points.length) ∧
      validateZone z = true) ∧
    (∀ z : Zone,
      (z.zone_type = "polygon" ∧ z.points.length < 3) ∨
      (z.zone_type = "line" ∧ z.points.length ≠ 2) →
      validateZone z = false) := by
  refine ⟨?_, fun events => (runZoneUI_invariants events).2, ?_, ?_⟩
  · intro idx s h
    unfold saveZone
    rw [if_pos h]
  · intro events idx z hsave
    obtain ⟨hty, hbound⟩ := runZoneUI_invariants events
    unfold saveZone at hsave
    dsimp only at hsave
    by_cases hline : (runZoneUI events).newZoneType = "line"
    · rw [if_pos hline] at hsave
      by_cases hlen : (runZoneUI events).drawingPoints.length < 2
      · rw [if_pos hlen] at hsave
        cases hsave
      · rw [if_neg hlen] at hsave
        injection hsave with hz
        subst hz
        have h2 : (runZoneUI events).drawingPoints.length = 2 := by
          have := hbound hline
          omega
        refine ⟨fun _ => h2, fun hne => absurd hline hne, ?_⟩
        unfold validateZone
        dsimp only
        rw [if_neg (by rw [hline]; decide), if_pos hline, h2]
        rfl
    · rw [if_neg hline] at hsave
      by_cases hlen : (runZoneUI events).drawingPoints.length < 3
      · rw [if_pos hlen] at hsave
        cases hsave
      · rw [if_neg hlen] at hsave
        injection hsave with hz
        subst hz
        have hpoly : (runZoneUI events).newZoneType = "polygon" := by
          rcases hty with h | h
          · exact h
          · exact absurd h hline
        refine ⟨fun hl => absurd hl hline, fun _ => ⟨hpoly, by dsimp only; omega⟩, ?_⟩
        unfold validateZone
        dsimp only
        rw [if_pos hpoly]
        exact decide_eq_true (by omega)
  · intro z h
    unfold validateZone
    rcases h with ⟨hty, hlen⟩ | ⟨hty, hlen⟩
    · rw [if_pos hty]
      exact decide_eq_false (by omega)
    · rw [if_neg (by rw [hty]; decide), if_pos hty]
      exact decide_eq_false hlen

/-- Witness for C7: drawing a line with two clicks saves a zone that passes
validation; an early save attempt is refused. -/
theorem zone_validation_gate_witness :
    ((initDrawState.drawingPoints.length <
        (if initDrawState.newZoneType = "line" then 2 else 3)) ∧
      saveZone 0 initDrawState = none) ∧
    (saveZone 0 (runZoneUI [ZoneUIEvent.startDrawing, ZoneUIEvent.chooseTypeLine,
        ZoneUIEvent.canvasClick (0, 0), ZoneUIEvent.canvasClick (1, 1)]) = some zLine ∧
      (zLine.zone_type = "line" → zLine.points.length = 2) ∧
      validateZone zLine = true) := by
  have hsave : saveZone 0 (runZoneUI [ZoneUIEvent.startDrawing, ZoneUIEvent.chooseTypeLine,
      ZoneUIEvent.canvasClick (0, 0), ZoneUIEvent.canvasClick (1, 1)]) = some zLine := by
    decide
  have happ := zone_validation_gate.2.2.1
    [ZoneUIEvent.startDrawing, ZoneUIEvent.chooseTypeLine,
     ZoneUIEvent.canvasClick (0, 0), ZoneUIEvent.canvasClick (1, 1)] 0 zLine hsave
  exact ⟨⟨by decide, zone_validation_gate.1 0 initDrawState (by decide)⟩,
         hsave, happ.1, happ.2.2⟩

/-! Helper lemmas for the zone-alert rendering. -/

theorem drawZoneAlerts_eq_map (zas : List ZoneAlert) :
    drawZoneAlerts zas = (unauthorizedZoneAlerts zas).map overlayOf := by
  induction zas with
  | nil => rfl
  | cons za rest ih =>
      unfold drawZoneAlerts unauthorizedZoneAlerts at ih ⊢
      rw [List.filterMap_cons, List.filter_cons]
      cases za.authorized with
      | true => simpa using ih
      | false => simpa using ih

/-- C10: zone alerts whose authorized flag is true are never surfaced in the
live view — `drawZoneAlerts` draws an overlay exactly for the alerts with
authorized false, and the feed-footer badge counts only those; when every
zone alert of a frame is authorized, no overlay is drawn and no badge is
shown. -/
theorem authorized_alerts_not_surfaced :
    (∀ zas : List ZoneAlert,
      drawZoneAlerts zas = (unauthorizedZoneAlerts zas).map overlayOf) ∧
    (∀ zas : List ZoneAlert, (∀ za ∈ zas, za.authorized = true) →
      drawZoneAlerts zas = [] ∧ unauthorizedZoneAlerts zas = [] ∧
      zoneAlertBadge zas = none) := by
  refine ⟨drawZoneAlerts_eq_map, fun zas hall => ?_⟩
  have hfil : unauthorizedZoneAlerts zas = [] := by
    unfold unauthorizedZoneAlerts
    rw [List.filter_eq_nil_iff]
    intro a ha
    simp [hall a ha]
  refine ⟨by rw [drawZoneAlerts_eq_map zas, hfil]; rfl, hfil, ?_⟩
  unfold zoneAlertBadge
  rw [hfil]
  rfl

/-- Witness for C10 at a single authorized zone alert. -/
theorem authorized_alerts_not_surfaced_witness :
    (∀ za ∈ [zaAuth], za.authorized = true) ∧
    drawZoneAlerts [zaAuth] = [] ∧ unauthorizedZoneAlerts [zaAuth] = [] ∧
    zoneAlertBadge [zaAuth] = none :=
  ⟨by decide, authorized_alerts_not_surfaced.2 [zaAuth] (by decide)⟩

/-! Helper lemmas for the alert deduplicator. -/

theorem lastFired_cons (cd : List ((ℕ × Option ℕ) × ℕ)) (k : ℕ × Option ℕ)
    (t : ℕ) (k' : ℕ × Option ℕ) :
    lastFired ((k, t) :: cd) k' = if k = k' then some t else lastFired cd k' := by
  unfold lastFired
  rw [List.find?_cons]
  by_cases h : k = k'
  · rw [if_pos h]
    dsimp only
    rw [decide_eq_true h]
    rfl
  · rw [if_neg h]
    dsimp only
    rw [decide_eq_false h]

theorem alertKey_mkAlert (v : Violation) (now : ℕ) :
    alertKey (mkAlert v now) = cooldownKey v := by
  rcases v with ⟨vt, f, z, n⟩
  cases vt <;> rfl

theorem considerViolation_suppress (s : SecState) (v : Violation) (now last : ℕ)
    (hl : lastFired s.cooldown (cooldownKey v) = some last)
    (hn : now < last + COOLDOWN_SECONDS) :
    considerViolation s v now = (none, s) := by
  unfold considerViolation
  dsimp only
  rw [hl]
  dsimp only
  rw [if_pos hn]

theorem considerViolation_fire (s : SecState) (v : Violation) (now : ℕ)
    (h : lastFired s.cooldown (cooldownKey v) = none ∨
      ∃ last, lastFired s.cooldown (cooldownKey v) = some last ∧
        last + COOLDOWN_SECONDS ≤ now) :
    considerViolation s v now =
      (some (mkAlert v now),
       ⟨mkAlert v now :: s.alerts, (cooldownKey v, now) :: s.cooldown⟩) := by
  unfold considerViolation
  dsimp only
  rcases h with h | ⟨last, hl, hge⟩
  · rw [h]
  · rw [hl]
    dsimp only
    rw [if_neg (by omega)]

theorem fire_preserves_inv (s : SecState) (v : Violation) (now t : ℕ)
    (ht : t ≤ now) (hsep : Separated s.alerts) (hbd : CdBounded s t)
    (hcov : AlertsCovered s)
    (hok : ∀ b ∈ s.alerts, alertKey b = cooldownKey v →
      b.timestamp + COOLDOWN_SECONDS ≤ now) :
    SecInv ⟨mkAlert v now :: s.alerts, (cooldownKey v, now) :: s.cooldown⟩ now := by
  refine ⟨List.Pairwise.cons ?_ hsep, ?_, ?_⟩
  · intro b hb hkey
    have hkb : alertKey b = cooldownKey v := by
      rw [← hkey, alertKey_mkAlert]
    exact hok b hb hkb
  · intro k l hkl
    rw [show (⟨mkAlert v now :: s.alerts, (cooldownKey v, now) :: s.cooldown⟩ :
        SecState).cooldown = (cooldownKey v, now) :: s.cooldown from rfl] at hkl
    rw [lastFired_cons] at hkl
    by_cases hk : cooldownKey v = k
    · rw [if_pos hk] at hkl
      injection hkl with h
      omega
    · rw [if_neg hk] at hkl
      exact le_trans (hbd k l hkl) ht
  · intro a ha
    rcases List.mem_cons.mp ha with rfl | ha
    · refine ⟨now, ?_, le_refl now⟩
      rw [show (⟨mkAlert v now :: s.alerts, (cooldownKey v, now) :: s.cooldown⟩ :
          SecState).cooldown = (cooldownKey v, now) :: s.cooldown from rfl]
      rw [lastFired_cons, alertKey_mkAlert, if_pos rfl]
    · obtain ⟨l, hfind, hle⟩ := hcov a ha
      rw [show (⟨mkAlert v now :: s.alerts, (cooldownKey v, now) :: s.cooldown⟩ :
          SecState).cooldown = (cooldownKey v, now) :: s.cooldown from rfl]
      rw [lastFired_cons]
      by_cases hk : cooldownKey v = alertKey a
      · exact ⟨now, by rw [if_pos hk], le_trans hle (le_trans (hbd _ _ hfind) ht)⟩
      · exact ⟨l, by rw [if_neg hk]; exact hfind, hle⟩

theorem considerViolation_inv (s : SecState) (v : Violation) (now t : ℕ)
    (ht : t ≤ now) (hinv : SecInv s t) :
    SecInv (considerViolation s v now).2 now := by
  obtain ⟨hsep, hbd, hcov⟩ := hinv
  cases hl : lastFired s.cooldown (cooldownKey v) with
  | some last =>
      by_cases hn : now < last + COOLDOWN_SECONDS
      · rw [considerViolation_suppress s v now last hl hn]
        exact ⟨hsep, fun k l hkl => le_trans (hbd k l hkl) ht, hcov⟩
      · rw [considerViolation_fire s v now (Or.inr ⟨last, hl, by omega⟩)]
        refine fire_preserves_inv s v now t ht hsep hbd hcov ?_
        intro b hb hkb
        obtain ⟨l, hfind, hle⟩ := hcov b hb
        rw [hkb, hl] at hfind
        injection hfind with h
        omega
  | none =>
      rw [considerViolation_fire s v now (Or.inl hl)]
      refine fire_preserves_inv s v now t ht hsep hbd hcov ?_
      intro b hb hkb
      obtain ⟨l, hfind, _⟩ := hcov b hb
      rw [hkb, hl] at hfind
      exact Option.noConfusion hfind

theorem runSec_inv (input : List (Violation × ℕ)) :
    ∀ (s : SecState) (t : ℕ), SecInv s t →
      input.Pairwise (fun a b => a.2 ≤ b.2) →
      (∀ e ∈ input, t ≤ e.2) →
      ∃ t', SecInv (runSec s input) t' := by
  induction input with
  | nil => exact fun s t h _ _ => ⟨t, h⟩
  | cons e rest ih =>
      intro s t hinv hpair hlb
      rcases e with ⟨v, tv⟩
      have h1 : t ≤ tv := hlb (v, tv) (List.mem_cons_self _ _)
      have hinv2 := considerViolation_inv s v tv t h1 hinv
      rcases List.pairwise_cons.mp hpair with ⟨hhead, htail⟩
      exact ih (considerViolation s v tv).2 tv hinv2 htail hhead

/-- C1: per cooldown key — (feed, zone) for zone/line violations, (feed) for
door-access violations — a violation within 15 s of the key's last fired
alert is suppressed (`considerViolation` returns null and leaves the state
untouched), a violation at or past the window persists a fresh alert with
resolution `none` and stamps the key's cooldown with the current time, and
consequently over any chronological violation stream no two persisted alerts
for the same key lie within 15 s of each other. -/
theorem alert_cooldown_dedup :
    (∀ (s : SecState) (v : Violation) (now last : ℕ),
      lastFired s.cooldown (cooldownKey v) = some last →
      now < last + COOLDOWN_SECONDS →
      considerViolation s v now = (none, s)) ∧
    (∀ (s : SecState) (v : Violation) (now : ℕ),
      (lastFired s.cooldown (cooldownKey v) = none ∨
       ∃ last, lastFired s.cooldown (cooldownKey v) = some last ∧
         last + COOLDOWN_SECONDS ≤ now) →
      considerViolation s v now =
        (some (mkAlert v now),
         ⟨mkAlert v now :: s.alerts, (cooldownKey v, now) :: s.cooldown⟩) ∧
      (mkAlert v now).resolution = Resolution.none ∧
      (mkAlert v now).timestamp = now ∧
      lastFired ((cooldownKey v, now) :: s.cooldown) (cooldownKey v) = some now) ∧
    (∀ input : List (Violation × ℕ), Chronological input →
      Separated (runSec emptySecState input).alerts) := by
  refine ⟨considerViolation_suppress, ?_, ?_⟩
  · intro s v now h
    exact ⟨considerViolation_fire s v now h, rfl, rfl,
      by rw [lastFired_cons, if_pos rfl]⟩
  · intro input hchron
    haveI : IsTrans (Violation × ℕ) (fun a b => a.2 ≤ b.2) :=
      ⟨fun a b c hab hbc => le_trans hab hbc⟩
    have hpair : input.Pairwise (fun a b => a.2 ≤ b.2) :=
      List.chain'_iff_pairwise.mp hchron
    have hempty : SecInv emptySecState 0 :=
      ⟨List.Pairwise.nil, fun k l h => Option.noConfusion h,
       fun a ha => absurd ha (List.not_mem_nil a)⟩
    obtain ⟨t', hfin⟩ :=
      runSec_inv input emptySecState 0 hempty hpair (fun e _ => Nat.zero_le _)
    exact hfin.1

/-- Witness for C1: a second same-key violation 10 s after the first is
suppressed; one 16 s after is persisted, leaving exactly two alerts. -/
theorem alert_cooldown_dedup_witness :
    lastFired [((0, some 1), 0)] (cooldownKey vZone) = some 0 ∧
    (10 : ℕ) < 0 + COOLDOWN_SECONDS ∧
    considerViolation ⟨[mkAlert vZone 0], [((0, some 1), 0)]⟩ vZone 10 =
      (none, ⟨[mkAlert vZone 0], [((0, some 1), 0)]⟩) ∧
    lastFired emptySecState.cooldown (cooldownKey vZone) = none ∧
    considerViolation emptySecState vZone 16 =
      (some (mkAlert vZone 16),
       ⟨[mkAlert vZone 16], [(cooldownKey vZone, 16)]⟩) ∧
    Chronological [(vZone, 0), (vZone, 10), (vZone, 16)] ∧
    Separated (runSec emptySecState [(vZone, 0), (vZone, 10), (vZone, 16)]).alerts ∧
    (runSec emptySecState [(vZone, 0), (vZone, 10), (vZone, 16)]).alerts.length = 2 := by
  have hchron : Chronological [(vZone, 0), (vZone, 10), (vZone, 16)] := by
    simp [Chronological, List.chain'_cons]
  exact ⟨by decide, by decide,
    alert_cooldown_dedup.1 ⟨[mkAlert vZone 0], [((0, some 1), 0)]⟩ vZone 10 0
      (by decide) (by decide),
    rfl,
    (alert_cooldown_dedup.2.1 emptySecState vZone 16 (Or.inl rfl)).1,
    hchron,
    alert_cooldown_dedup.2.2 [(vZone, 0), (vZone, 10), (vZone, 16)] hchron,
    by decide⟩

end Facey
